import Mathlib

/-!
Shallow embedding of the `makeHandler` pipeline executor of
`express-ts-handler` (the request routine produced per route), together
with proofs of the behavioural properties stated about it.

The source routine (README, `makeHandler`) is, per invocation:

  let err; let originalSend;
  const localNext = (error) => { err = error; };
  try {
    if (use) for (const fn of use) {
      await fn(req, res, localNext);
      if (err) { next(err); return; }
    }
    if (query)  req.query  = parse(query, req.query);
    if (params) req.params = parse(params, req.params);
    if (body)   req.body   = parse(body, req.body);
    if (result && checkResult) {
      const send = res.send; originalSend = send;
      res.send = (value) => {
        originalSend = undefined; res.send = send;
        return send.call(res, parse(result, value)); };
    }
    const output = await handler(req, res, localNext);
    if (!res.headersSent && !err) res.send(output);
  } catch (e) { err = e; }
  if (originalSend) res.send = originalSend;
  next(err);

Modelling conventions:
* `Req` is the request context with its three validated fields plus an
  opaque `extra` component for middleware-added data.
* Error values passed to `localNext` are `Option Err`: `none` models a
  call with no / undefined argument.  Every value of `Err` models a
  truthy JavaScript error, so the source's `if (err)` truthiness test
  becomes `Option.isSome`.
* A JavaScript handler that returns nothing returns the value
  `undefined`; since the payload type `Val` is an arbitrary type, a
  void return is the special case of returning a designated element,
  so handler completion carries a `Val`.
* The state `St` holds the live parts of one invocation: the request
  object, the current occupant of the `res.send` slot, `res.headersSent`,
  the `err` and `originalSend` local variables — plus ghost observation
  fields (payloads actually transmitted by the original send, calls made
  to the host continuation `next`, which middleware steps started, which
  fields were validated, the context the handler was invoked with) that
  record events without influencing control flow.
-/

section Model

variable {Val Extra Err Schema FieldMap : Type}

/-- The request context: `req.query`, `req.params`, `req.body`, and an
opaque component standing for every other property middleware may add
or replace in place. -/
structure Req (Val Extra : Type) where
  query : Val
  params : Val
  body : Val
  extra : Extra
deriving DecidableEq, Repr

/-- The three request fields that can carry a validation schema,
in the source's order of validation. -/
inductive RField where
  | query
  | params
  | body
deriving DecidableEq, Repr

/-- The occupant of the mutable `res.send` slot: either the host
framework's original send operation, or the validating override
installed by the response interceptor (which closes over the result
schema). -/
inductive SendSlot (Schema : Type) where
  | original
  | wrapped (r : Schema)
deriving DecidableEq, Repr

/-- Per-invocation execution state: the live variables of the source
routine plus ghost observation fields. -/
structure St (Val Extra Err Schema : Type) where
  /-- the request object `req` (mutable, passed by reference) -/
  ctx : Req Val Extra
  /-- current occupant of the `res.send` slot -/
  resSend : SendSlot Schema := SendSlot.original
  /-- `res.headersSent`: set once a payload goes through the original send -/
  headersSent : Bool := false
  /-- whether the local variable `originalSend` currently holds the
  original send operation (it only ever holds that or `undefined`) -/
  originalSend : Bool := false
  /-- the `err` local variable written by `localNext` and the catch block -/
  err : Option Err := none
  /-- ghost: payloads actually transmitted through the original send -/
  sent : List Val := []
  /-- ghost: arguments of the calls made to the host continuation `next` -/
  nextCalls : List (Option Err) := []
  /-- ghost: how many middleware steps were invoked -/
  mwStarted : Nat := 0
  /-- ghost: fields on which `parse` was attempted, in order -/
  validated : List RField := []
  /-- ghost: the context the handler was invoked with, if it was invoked -/
  handlerCtx : Option (Req Val Extra) := none
deriving DecidableEq, Repr

/-- Fresh state at the start of an invocation: `err` and `originalSend`
are undefined, `res.send` holds the original operation. -/
def initSt (req : Req Val Extra) : St Val Extra Err Schema := { ctx := req }

/-- Observable effect of one middleware call `fn(req, res, localNext)`:
the request after the call's in-place mutations, the sequence of
`localNext` invocations it made, whether it threw at the end, and the
value it returned (`none` models a void return).  The claims under
study do not exercise a middleware's access to `res`, so the modelled
class of middleware behaviours leaves the response untouched. -/
structure MwOutcome (Val Extra Err : Type) where
  ctx : Req Val Extra
  signals : List (Option Err) := []
  thrown : Option Err := none
  ret : Option (Req Val Extra) := none

/-- A middleware step, as the function from the request it is handed
to the observable effect of the call. -/
def MwStep (Val Extra Err : Type) : Type :=
  Req Val Extra → MwOutcome Val Extra Err

/-- Value of the `err` variable after a sequence of `localNext` calls:
each call overwrites the variable with its argument. -/
def applySignals (err : Option Err) (sigs : List (Option Err)) : Option Err :=
  sigs.foldl (fun _ s => s) err

/-- How the middleware loop was left: ran to completion, performed the
early `next(err); return`, or an exception escaped it. -/
inductive LoopExit (Err : Type) where
  | ok
  | early
  | thrown (e : Err)

/-- The middleware loop: `for (const fn of use) { await fn(req, res,
localNext); if (err) { next(err); return; } }`.  The value a step
returns is discarded, exactly as in the source, which never reads the
result of `await fn(...)`. -/
def runMws : List (MwStep Val Extra Err) → St Val Extra Err Schema →
    St Val Extra Err Schema × LoopExit Err
  | [], s => (s, LoopExit.ok)
  | fn :: rest, s =>
    let o := fn s.ctx
    let s1 : St Val Extra Err Schema :=
      { s with ctx := o.ctx, mwStarted := s.mwStarted + 1,
               err := applySignals s.err o.signals }
    match o.thrown with
    | some e => (s1, LoopExit.thrown e)
    | none =>
      match s1.err with
      | some _ => ({ s1 with nextCalls := s1.nextCalls ++ [s1.err] }, LoopExit.early)
      | none => runMws rest s1

variable (parse : Schema → Val → Except Err Val)

/-- One field validation `if (sch) req.f = parse(sch, req.f)`, with the
field read and written through the supplied accessors; returns the
exception when `parse` throws. -/
def validate1 (sch : Option Schema) (f : RField) (get : Req Val Extra → Val)
    (set : Req Val Extra → Val → Req Val Extra) (s : St Val Extra Err Schema) :
    St Val Extra Err Schema × Option Err :=
  match sch with
  | none => (s, none)
  | some t =>
    let s1 : St Val Extra Err Schema := { s with validated := s.validated ++ [f] }
    match parse t (get s1.ctx) with
    | Except.error e => (s1, some e)
    | Except.ok v => ({ s1 with ctx := set s1.ctx v }, none)

/-- The field-validation block: query, then params, then body; the
first thrown validation error aborts the rest. -/
def runValidation (q p b : Option Schema) (s : St Val Extra Err Schema) :
    St Val Extra Err Schema × Option Err :=
  match validate1 parse q RField.query (fun r => r.query)
      (fun r v => { r with query := v }) s with
  | (s1, some e) => (s1, some e)
  | (s1, none) =>
    match validate1 parse p RField.params (fun r => r.params)
        (fun r v => { r with params := v }) s1 with
    | (s2, some e) => (s2, some e)
    | (s2, none) =>
      match validate1 parse b RField.body (fun r => r.body)
          (fun r v => { r with body := v }) s2 with
      | (s3, some e) => (s3, some e)
      | (s3, none) => (s3, none)

/-- A call `res.send(value)` through the current occupant of the slot.
The original send transmits and marks headers sent.  The wrapped send
first clears `originalSend` and restores the slot, then parses; a
validation failure is the thrown exception (second component), and the
payload is not transmitted. -/
def doSend (s : St Val Extra Err Schema) (v : Val) :
    St Val Extra Err Schema × Option Err :=
  match s.resSend with
  | SendSlot.original =>
    ({ s with headersSent := true, sent := s.sent ++ [v] }, none)
  | SendSlot.wrapped r =>
    let s1 : St Val Extra Err Schema :=
      { s with originalSend := false, resSend := SendSlot.original }
    match parse r v with
    | Except.error e => (s1, some e)
    | Except.ok w =>
      ({ s1 with headersSent := true, sent := s1.sent ++ [w] }, none)

/-- Visible actions a handler can take while running: call `res.send`,
call the provided `localNext`, or mutate the request in place. -/
inductive HAction (Val Extra Err : Type) where
  | send (v : Val)
  | signal (e : Option Err)
  | mutate (f : Req Val Extra → Req Val Extra)

/-- A handler run, as performed actions followed by its completion:
`Except.ok v` is a normal return of `v` (a void return is the return
of the undefined value), `Except.error e` is a throw. -/
structure Script (Val Extra Err : Type) where
  actions : List (HAction Val Extra Err)
  finish : Except Err Val

/-- Runs the handler's actions in order.  An exception thrown by a
`res.send` call (result-validation failure) propagates out of the
handler, aborting the remaining actions. -/
def runScript : List (HAction Val Extra Err) → St Val Extra Err Schema →
    St Val Extra Err Schema × Option Err
  | [], s => (s, none)
  | a :: rest, s =>
    match a with
    | HAction.signal e => runScript rest { s with err := e }
    | HAction.mutate f => runScript rest { s with ctx := f s.ctx }
    | HAction.send v =>
      match doSend parse s v with
      | (s1, none) => runScript rest s1
      | (s1, some e) => (s1, some e)

/-- `await handler(req, res, localNext)`: the handler observes the
current request, runs its actions, and either completes with a value
or an exception escapes it. -/
def runHandler (h : Req Val Extra → Script Val Extra Err)
    (s : St Val Extra Err Schema) : St Val Extra Err Schema × Except Err Val :=
  let sc := h s.ctx
  let s1 : St Val Extra Err Schema := { s with handlerCtx := some s.ctx }
  match runScript parse sc.actions s1 with
  | (s2, some e) => (s2, Except.error e)
  | (s2, none) => (s2, sc.finish)

/-- The routine's tail, run on every path except the loop's early
return: `if (originalSend) res.send = originalSend; next(err);`. -/
def finalize (s : St Val Extra Err Schema) : St Val Extra Err Schema :=
  let s1 : St Val Extra Err Schema :=
    if s.originalSend then { s with resSend := SendSlot.original } else s
  { s1 with nextCalls := s1.nextCalls ++ [s1.err] }

/-- A route's configuration after `makeHandler`'s setup code ran:
schemas normalized, `use` coerced to a list, `checkResult` resolved. -/
structure Cfg (Val Extra Err Schema : Type) where
  use : List (MwStep Val Extra Err)
  query : Option Schema := none
  params : Option Schema := none
  body : Option Schema := none
  result : Option Schema := none
  checkResult : Bool
  handler : Req Val Extra → Script Val Extra Err

/-- `if (result && checkResult) { originalSend = res.send; res.send =
wrapped; }`: installs the response interceptor when a result schema is
configured and checking is enabled. -/
def installIc (cfg : Cfg Val Extra Err Schema) (s : St Val Extra Err Schema) :
    St Val Extra Err Schema :=
  match cfg.result, cfg.checkResult with
  | some r, true => { s with originalSend := true, resSend := SendSlot.wrapped r }
  | _, _ => s

/-- Handler invocation, the implicit send `if (!res.headersSent && !err)
res.send(output)`, the catch block, and the shared tail. -/
def handlerPhase (cfg : Cfg Val Extra Err Schema) (s : St Val Extra Err Schema) :
    St Val Extra Err Schema :=
  match runHandler parse cfg.handler s with
  | (s1, Except.error e) => finalize { s1 with err := some e }
  | (s1, Except.ok output) =>
    if !s1.headersSent && s1.err.isNone then
      match doSend parse s1 output with
      | (s2, none) => finalize s2
      | (s2, some e) => finalize { s2 with err := some e }
    else finalize s1

/-- Field validation followed by interceptor installation and the
handler phase; a validation error goes to the catch block and then the
tail. -/
def validationPhase (cfg : Cfg Val Extra Err Schema) (s : St Val Extra Err Schema) :
    St Val Extra Err Schema :=
  match runValidation parse cfg.query cfg.params cfg.body s with
  | (s1, some e) => finalize { s1 with err := some e }
  | (s1, none) => handlerPhase parse cfg (installIc cfg s1)

/-- One invocation of the routine `makeHandler` returns for a route:
middleware loop, field validation, interceptor installation, handler,
implicit send, catch, restoration, final `next`.  The early
`next(err); return` inside the loop skips the tail, exactly as in the
source. -/
def invoke (cfg : Cfg Val Extra Err Schema) (req : Req Val Extra) :
    St Val Extra Err Schema :=
  match runMws cfg.use (initSt req) with
  | (s, LoopExit.early) => s
  | (s, LoopExit.thrown e) => finalize { s with err := some e }
  | (s, LoopExit.ok) => validationPhase parse cfg s

/-- Validation of one optional field outside the pipeline: what the
block `if (sch) req.f = parse(sch, req.f)` computes for the field
value, with an absent schema leaving the value untouched. -/
def parseField (sch : Option Schema) (v : Val) : Except Err Val :=
  match sch with
  | none => Except.ok v
  | some t => parse t v

/-- A value passed as `query`/`params`/`body`/`result`: either an
already-opaque schema or a plain field-map object. -/
inductive SchemaInput (Schema FieldMap : Type) where
  | opaqueSchema (s : Schema)
  | plainObject (m : FieldMap)

/-- `objectToType`: converts a plain object through the `object`
combinator and passes anything else through unchanged. -/
def objectToType (object : FieldMap → Schema) :
    Option (SchemaInput Schema FieldMap) → Option Schema
  | none => none
  | some (SchemaInput.opaqueSchema s) => some s
  | some (SchemaInput.plainObject m) => some (object m)

/-- The `use` option: absent, a single middleware, or a list. -/
inductive UseInput (M : Type) where
  | one (m : M)
  | many (l : List M)

/-- `if (use && !Array.isArray(use)) use = [use]`, with an absent `use`
making the loop run zero times. -/
def toUseList : Option (UseInput M) → List M
  | none => []
  | some (UseInput.one m) => [m]
  | some (UseInput.many l) => l

/-- The options given to `makeHandler` once per application:
the `parse` function is threaded separately as a section parameter. -/
structure MakeOpts (Schema FieldMap : Type) where
  object : FieldMap → Schema
  checkResult : Option Bool := none

/-- A route's raw configuration object, before setup. -/
structure RouteCfg (Val Extra Err Schema FieldMap : Type) where
  use : Option (UseInput (MwStep Val Extra Err)) := none
  query : Option (SchemaInput Schema FieldMap) := none
  params : Option (SchemaInput Schema FieldMap) := none
  body : Option (SchemaInput Schema FieldMap) := none
  result : Option (SchemaInput Schema FieldMap) := none
  handler : Req Val Extra → Script Val Extra Err

/-- The setup `makeHandler` and its returned route wrapper perform:
`checkResult` defaults to `process.env.NODE_ENV !== 'production'`,
schema inputs are normalized with `objectToType`, `use` becomes a
list. -/
def resolveRoute (opts : MakeOpts Schema FieldMap) (production : Bool)
    (rc : RouteCfg Val Extra Err Schema FieldMap) : Cfg Val Extra Err Schema :=
  { use := toUseList rc.use
    query := objectToType opts.object rc.query
    params := objectToType opts.object rc.params
    body := objectToType opts.object rc.body
    result := objectToType opts.object rc.result
    checkResult := opts.checkResult.getD (!production)
    handler := rc.handler }

/-- The request routine `makeHandler opts` produces for a route, as the
function from the incoming request to the invocation's final state. -/
def makeHandler (opts : MakeOpts Schema FieldMap) (production : Bool)
    (rc : RouteCfg Val Extra Err Schema FieldMap) (req : Req Val Extra) :
    St Val Extra Err Schema :=
  invoke parse (resolveRoute opts production rc) req

/-- A middleware call that fails neither by throwing nor by leaving a
truthy error in the `err` slot. -/
def MwOk (m : MwStep Val Extra Err) (c : Req Val Extra) : Prop :=
  (m c).thrown = none ∧ applySignals (none : Option Err) (m c).signals = none

/-- Every step of the chain succeeds, each at the context produced by
the in-place mutations of the steps before it. -/
def ChainOk : List (MwStep Val Extra Err) → Req Val Extra → Prop
  | [], _ => True
  | m :: rest, c => MwOk m c ∧ ChainOk rest (m c).ctx

/-- The cumulative in-place mutation of a middleware chain, applied in
list order. -/
def foldCtx (l : List (MwStep Val Extra Err)) (c : Req Val Extra) : Req Val Extra :=
  l.foldl (fun c m => (m c).ctx) c

/-- State change a successfully completed middleware chain performs:
the context is folded, the started counter advances, nothing else. -/
def advanceMws (l : List (MwStep Val Extra Err)) (s : St Val Extra Err Schema) :
    St Val Extra Err Schema :=
  l.foldl (fun s m => { s with ctx := (m s.ctx).ctx, mwStarted := s.mwStarted + 1 }) s

/-- The restoration invariant: either the local `originalSend` still
holds the original send operation (so the tail will restore it), or
the slot already holds it. -/
def RestoreInv (s : St Val Extra Err Schema) : Prop :=
  s.originalSend = true ∨ s.resSend = SendSlot.original

end Model

/-! Concrete instantiation used by counterexamples and witnesses:
payloads, extra data, errors, schemas and field-maps are all `Nat`.
`parseMod t v` succeeds below the threshold `t`, coercing the value
(so replacement by the validated value is observable), and throws
`v + 100` otherwise. -/

namespace Ex

def parseMod (t v : Nat) : Except Nat Nat :=
  if v < t then Except.ok (v * 10) else Except.error (v + 100)

def reqA : Req Nat Nat := { query := 1, params := 2, body := 3, extra := 0 }

/-- Middleware that returns a fresh extended context but performs no
in-place mutation. -/
def mwPureRet : MwStep Nat Nat Nat :=
  fun c => { ctx := c, ret := some { c with extra := c.extra + 7 } }

/-- Middleware that signals an error through `localNext` and then
throws a different error. -/
def mwSignalThenThrow : MwStep Nat Nat Nat :=
  fun c => { ctx := c, signals := [some 1], thrown := some 2 }

/-- Middleware that mutates the request in place and succeeds. -/
def mwAdd (k : Nat) : MwStep Nat Nat Nat :=
  fun c => { ctx := { c with extra := c.extra + k }, ret := some { c with extra := c.extra + k } }

/-- Middleware that throws. -/
def mwThrow (e : Nat) : MwStep Nat Nat Nat :=
  fun c => { ctx := c, thrown := some e }

/-- Middleware that fails by signalling through `localNext`. -/
def mwSignal (e : Nat) : MwStep Nat Nat Nat :=
  fun c => { ctx := c, signals := [some e] }

/-- Handler that performs no action and returns `v`. -/
def hReturn (v : Nat) : Req Nat Nat → Script Nat Nat Nat :=
  fun _ => { actions := [], finish := Except.ok v }

/-- Handler that sends `v` explicitly and then returns `w`. -/
def hSendThenReturn (v w : Nat) : Req Nat Nat → Script Nat Nat Nat :=
  fun _ => { actions := [HAction.send v], finish := Except.ok w }

/-- Handler that signals `e`, then sends `v` explicitly, then returns `w`. -/
def hSignalSendReturn (e v w : Nat) : Req Nat Nat → Script Nat Nat Nat :=
  fun _ => { actions := [HAction.signal (some e), HAction.send v], finish := Except.ok w }

def cfgC1 : Cfg Nat Nat Nat Nat :=
  { use := [mwPureRet], checkResult := true, handler := hReturn 0 }

def cfgC2 : Cfg Nat Nat Nat Nat :=
  { use := [mwSignalThenThrow], checkResult := true, handler := hReturn 0 }

def cfgC1W : Cfg Nat Nat Nat Nat :=
  { use := [mwAdd 2, mwAdd 3], checkResult := true, handler := hReturn 0 }

def cfgC6 : Cfg Nat Nat Nat Nat :=
  { use := [], query := some 5, params := some 20, body := some 2,
    checkResult := true, handler := hReturn 0 }

def cfgC7E : Cfg Nat Nat Nat Nat :=
  { use := [], result := some 2, checkResult := true, handler := hSendThenReturn 5 0 }

def cfgC7I : Cfg Nat Nat Nat Nat :=
  { use := [], result := some 2, checkResult := true, handler := hReturn 5 }

def cfgC8 : Cfg Nat Nat Nat Nat :=
  { use := [], result := none, checkResult := false, handler := hReturn 7 }

/-- The state after `cfgC8`'s handler ran: nothing happened except
recording the handler invocation. -/
def sC8 : St Nat Nat Nat Nat := { ctx := reqA, handlerCtx := some reqA }

def optsC9 : MakeOpts Nat Nat := { object := fun m => m, checkResult := some false }

def rcC9 : RouteCfg Nat Nat Nat Nat Nat :=
  { result := some (SchemaInput.opaqueSchema 2), handler := hReturn 5 }

end Ex

/-! Preservation lemmas: which parts of the state each phase of the
routine leaves untouched. -/

section Lemmas

variable {Val Extra Err Schema : Type} (parse : Schema → Val → Except Err Val)

theorem finalize_nextCalls (s : St Val Extra Err Schema) :
    (finalize s).nextCalls = s.nextCalls ++ [s.err] := by
  unfold finalize; by_cases h : s.originalSend <;> simp [h]

theorem finalize_err (s : St Val Extra Err Schema) : (finalize s).err = s.err := by
  unfold finalize; by_cases h : s.originalSend <;> simp [h]

theorem finalize_sent (s : St Val Extra Err Schema) : (finalize s).sent = s.sent := by
  unfold finalize; by_cases h : s.originalSend <;> simp [h]

theorem finalize_headersSent (s : St Val Extra Err Schema) :
    (finalize s).headersSent = s.headersSent := by
  unfold finalize; by_cases h : s.originalSend <;> simp [h]

theorem finalize_handlerCtx (s : St Val Extra Err Schema) :
    (finalize s).handlerCtx = s.handlerCtx := by
  unfold finalize; by_cases h : s.originalSend <;> simp [h]

theorem finalize_validated (s : St Val Extra Err Schema) :
    (finalize s).validated = s.validated := by
  unfold finalize; by_cases h : s.originalSend <;> simp [h]

theorem finalize_mwStarted (s : St Val Extra Err Schema) :
    (finalize s).mwStarted = s.mwStarted := by
  unfold finalize; by_cases h : s.originalSend <;> simp [h]

/-- Under the restoration invariant, the routine's tail leaves the
original send operation in the slot. -/
theorem finalize_resSend (s : St Val Extra Err Schema) (h : RestoreInv s) :
    (finalize s).resSend = SendSlot.original := by
  unfold finalize
  rcases h with h | h
  · simp [h]
  · by_cases h2 : s.originalSend <;> simp [h2, h]

theorem doSend_preserve (s : St Val Extra Err Schema) (v : Val) :
    (doSend parse s v).1.nextCalls = s.nextCalls ∧
    (doSend parse s v).1.validated = s.validated ∧
    (doSend parse s v).1.handlerCtx = s.handlerCtx ∧
    (doSend parse s v).1.mwStarted = s.mwStarted ∧
    (doSend parse s v).1.ctx = s.ctx ∧
    (doSend parse s v).1.err = s.err := by
  unfold doSend
  rcases h : s.resSend with _ | r
  · simp
  · rcases h2 : parse r v with e | w <;> simp [h2]

theorem doSend_inv (s : St Val Extra Err Schema) (v : Val) (h : RestoreInv s) :
    RestoreInv (doSend parse s v).1 := by
  unfold doSend
  rcases hs : s.resSend with _ | r
  · rcases h with h | h
    · exact Or.inl h
    · exact Or.inr (by simp [hs])
  · rcases h2 : parse r v with e | w
    · exact Or.inr (by simp [h2])
    · exact Or.inr (by simp [h2])

theorem runScript_preserve (as : List (HAction Val Extra Err))
    (s : St Val Extra Err Schema) :
    (runScript parse as s).1.nextCalls = s.nextCalls ∧
    (runScript parse as s).1.validated = s.validated ∧
    (runScript parse as s).1.handlerCtx = s.handlerCtx ∧
    (runScript parse as s).1.mwStarted = s.mwStarted := by
  induction as generalizing s with
  | nil => simp [runScript]
  | cons a rest ih =>
    cases a with
    | signal e => simpa [runScript] using ih { s with err := e }
    | mutate f => simpa [runScript] using ih { s with ctx := f s.ctx }
    | send v =>
      have hd := doSend_preserve parse s v
      rcases h : doSend parse s v with ⟨s1, e1⟩
      rw [h] at hd
      cases e1 with
      | none =>
        have := ih s1
        simp only [runScript, h]
        exact ⟨by rw [this.1, hd.1], by rw [this.2.1, hd.2.1],
          by rw [this.2.2.1, hd.2.2.1], by rw [this.2.2.2, hd.2.2.2.1]⟩
      | some e => simp only [runScript, h]; exact ⟨hd.1, hd.2.1, hd.2.2.1, hd.2.2.2.1⟩

theorem runScript_inv (as : List (HAction Val Extra Err))
    (s : St Val Extra Err Schema) (h : RestoreInv s) :
    RestoreInv (runScript parse as s).1 := by
  induction as generalizing s with
  | nil => simpa [runScript] using h
  | cons a rest ih =>
    cases a with
    | signal e => exact ih { s with err := e } (by rcases h with h | h <;> [exact Or.inl h; exact Or.inr h])
    | mutate f => exact ih { s with ctx := f s.ctx } (by rcases h with h | h <;> [exact Or.inl h; exact Or.inr h])
    | send v =>
      have hd := doSend_inv parse s v h
      rcases hds : doSend parse s v with ⟨s1, e1⟩
      rw [hds] at hd
      cases e1 with
      | none => simpa [runScript, hds] using ih s1 hd
      | some e => simpa [runScript, hds] using hd

theorem runHandler_preserve (h : Req Val Extra → Script Val Extra Err)
    (s : St Val Extra Err Schema) :
    (runHandler parse h s).1.nextCalls = s.nextCalls ∧
    (runHandler parse h s).1.validated = s.validated ∧
    (runHandler parse h s).1.handlerCtx = some s.ctx ∧
    (runHandler parse h s).1.mwStarted = s.mwStarted := by
  unfold runHandler
  have hp := runScript_preserve parse (h s.ctx).actions
    ({ s with handlerCtx := some s.ctx } : St Val Extra Err Schema)
  rcases hs : runScript parse (h s.ctx).actions
      ({ s with handlerCtx := some s.ctx } : St Val Extra Err Schema) with ⟨s2, e2⟩
  rw [hs] at hp
  cases e2 with
  | none => simp only [hs]; simpa using hp
  | some e => simp only [hs]; simpa using hp

theorem validate1_preserve (sch : Option Schema) (f : RField)
    (get : Req Val Extra → Val) (set : Req Val Extra → Val → Req Val Extra)
    (s : St Val Extra Err Schema) :
    (validate1 parse sch f get set s).1.nextCalls = s.nextCalls ∧
    (validate1 parse sch f get set s).1.handlerCtx = s.handlerCtx ∧
    (validate1 parse sch f get set s).1.mwStarted = s.mwStarted ∧
    (validate1 parse sch f get set s).1.resSend = s.resSend ∧
    (validate1 parse sch f get set s).1.originalSend = s.originalSend ∧
    (validate1 parse sch f get set s).1.headersSent = s.headersSent ∧
    (validate1 parse sch f get set s).1.sent = s.sent ∧
    (validate1 parse sch f get set s).1.err = s.err := by
  unfold validate1
  rcases sch with _ | t
  · simp
  · rcases h2 : parse t (get s.ctx) with e | w <;> simp [h2]

theorem runValidation_preserve (q p b : Option Schema) (s : St Val Extra Err Schema) :
    (runValidation parse q p b s).1.nextCalls = s.nextCalls ∧
    (runValidation parse q p b s).1.handlerCtx = s.handlerCtx ∧
    (runValidation parse q p b s).1.mwStarted = s.mwStarted ∧
    (runValidation parse q p b s).1.resSend = s.resSend ∧
    (runValidation parse q p b s).1.originalSend = s.originalSend ∧
    (runValidation parse q p b s).1.headersSent = s.headersSent ∧
    (runValidation parse q p b s).1.sent = s.sent ∧
    (runValidation parse q p b s).1.err = s.err := by
  unfold runValidation
  have h1 := validate1_preserve parse q RField.query (fun r => r.query)
    (fun r v => { r with query := v }) s
  rcases hv1 : validate1 parse q RField.query (fun r => r.query)
      (fun r v => { r with query := v }) s with ⟨s1, e1⟩
  rw [hv1] at h1
  cases e1 with
  | some e => simp only [hv1]; exact h1
  | none =>
    have h2 := validate1_preserve parse p RField.params (fun r => r.params)
      (fun r v => { r with params := v }) s1
    rcases hv2 : validate1 parse p RField.params (fun r => r.params)
        (fun r v => { r with params := v }) s1 with ⟨s2, e2⟩
    rw [hv2] at h2
    cases e2 with
    | some e =>
      simp only [hv1, hv2]
      exact ⟨h2.1.trans h1.1, (h2.2.1).trans h1.2.1, (h2.2.2.1).trans h1.2.2.1,
        (h2.2.2.2.1).trans h1.2.2.2.1, (h2.2.2.2.2.1).trans h1.2.2.2.2.1,
        (h2.2.2.2.2.2.1).trans h1.2.2.2.2.2.1,
        (h2.2.2.2.2.2.2.1).trans h1.2.2.2.2.2.2.1,
        (h2.2.2.2.2.2.2.2).trans h1.2.2.2.2.2.2.2⟩
    | none =>
      have h3 := validate1_preserve parse b RField.body (fun r => r.body)
        (fun r v => { r with body := v }) s2
      rcases hv3 : validate1 parse b RField.body (fun r => r.body)
          (fun r v => { r with body := v }) s2 with ⟨s3, e3⟩
      rw [hv3] at h3
      have comp : s3.nextCalls = s.nextCalls ∧ s3.handlerCtx = s.handlerCtx ∧
          s3.mwStarted = s.mwStarted ∧ s3.resSend = s.resSend ∧
          s3.originalSend = s.originalSend ∧ s3.headersSent = s.headersSent ∧
          s3.sent = s.sent ∧ s3.err = s.err :=
        ⟨(h3.1.trans h2.1).trans h1.1, ((h3.2.1).trans h2.2.1).trans h1.2.1,
          ((h3.2.2.1).trans h2.2.2.1).trans h1.2.2.1,
          ((h3.2.2.2.1).trans h2.2.2.2.1).trans h1.2.2.2.1,
          ((h3.2.2.2.2.1).trans h2.2.2.2.2.1).trans h1.2.2.2.2.1,
          ((h3.2.2.2.2.2.1).trans h2.2.2.2.2.2.1).trans h1.2.2.2.2.2.1,
          ((h3.2.2.2.2.2.2.1).trans h2.2.2.2.2.2.2.1).trans h1.2.2.2.2.2.2.1,
          ((h3.2.2.2.2.2.2.2).trans h2.2.2.2.2.2.2.2).trans h1.2.2.2.2.2.2.2⟩
      cases e3 with
      | some e => simp only [hv1, hv2, hv3]; exact comp
      | none => simp only [hv1, hv2, hv3]; exact comp

theorem runMws_preserve (l : List (MwStep Val Extra Err)) (s : St Val Extra Err Schema) :
    (runMws l s).1.resSend = s.resSend ∧
    (runMws l s).1.originalSend = s.originalSend ∧
    (runMws l s).1.sent = s.sent ∧
    (runMws l s).1.headersSent = s.headersSent ∧
    (runMws l s).1.validated = s.validated ∧
    (runMws l s).1.handlerCtx = s.handlerCtx := by
  induction l generalizing s with
  | nil => simp [runMws]
  | cons fn rest ih =>
    simp only [runMws]
    rcases ht : (fn s.ctx).thrown with _ | e
    · rcases he : applySignals s.err (fn s.ctx).signals with _ | e
      · simpa [ht, he] using ih _
      · simp [ht, he]
    · simp [ht]

theorem runMws_calls (l : List (MwStep Val Extra Err)) (s : St Val Extra Err Schema) :
    ((runMws l s).2 = LoopExit.early →
      (runMws l s).1.nextCalls =
        s.nextCalls ++ [(runMws l s).1.err]) ∧
    (∀ e, (runMws l s).2 = LoopExit.thrown e →
      (runMws l s).1.nextCalls = s.nextCalls) ∧
    ((runMws l s).2 = LoopExit.ok →
      (runMws l s).1.nextCalls = s.nextCalls) := by
  induction l generalizing s with
  | nil => simp [runMws]
  | cons fn rest ih =>
    simp only [runMws]
    rcases ht : (fn s.ctx).thrown with _ | e
    · rcases he : applySignals s.err (fn s.ctx).signals with _ | e
      · simpa [ht, he] using ih _
      · simp [ht, he]
    · simp [ht]

theorem advanceMws_ctx (l : List (MwStep Val Extra Err)) (s : St Val Extra Err Schema) :
    (advanceMws l s).ctx = foldCtx l s.ctx := by
  induction l generalizing s with
  | nil => rfl
  | cons m rest ih => exact ih _

theorem advanceMws_err (l : List (MwStep Val Extra Err)) (s : St Val Extra Err Schema) :
    (advanceMws l s).err = s.err := by
  induction l generalizing s with
  | nil => rfl
  | cons m rest ih => exact ih _

theorem advanceMws_mwStarted (l : List (MwStep Val Extra Err)) (s : St Val Extra Err Schema) :
    (advanceMws l s).mwStarted = s.mwStarted + l.length := by
  induction l generalizing s with
  | nil => rfl
  | cons m rest ih =>
    have h := ih ({ s with ctx := (m s.ctx).ctx, mwStarted := s.mwStarted + 1 } : St Val Extra Err Schema)
    simp only [List.length_cons]
    calc (advanceMws (m :: rest) s).mwStarted = s.mwStarted + 1 + rest.length := h
      _ = s.mwStarted + (rest.length + 1) := by omega

theorem advanceMws_nextCalls (l : List (MwStep Val Extra Err)) (s : St Val Extra Err Schema) :
    (advanceMws l s).nextCalls = s.nextCalls := by
  induction l generalizing s with
  | nil => rfl
  | cons m rest ih => exact ih _

theorem advanceMws_validated (l : List (MwStep Val Extra Err)) (s : St Val Extra Err Schema) :
    (advanceMws l s).validated = s.validated := by
  induction l generalizing s with
  | nil => rfl
  | cons m rest ih => exact ih _

theorem advanceMws_handlerCtx (l : List (MwStep Val Extra Err)) (s : St Val Extra Err Schema) :
    (advanceMws l s).handlerCtx = s.handlerCtx := by
  induction l generalizing s with
  | nil => rfl
  | cons m rest ih => exact ih _

theorem advanceMws_resSend (l : List (MwStep Val Extra Err)) (s : St Val Extra Err Schema) :
    (advanceMws l s).resSend = s.resSend := by
  induction l generalizing s with
  | nil => rfl
  | cons m rest ih => exact ih _

theorem advanceMws_originalSend (l : List (MwStep Val Extra Err)) (s : St Val Extra Err Schema) :
    (advanceMws l s).originalSend = s.originalSend := by
  induction l generalizing s with
  | nil => rfl
  | cons m rest ih => exact ih _

theorem advanceMws_sent (l : List (MwStep Val Extra Err)) (s : St Val Extra Err Schema) :
    (advanceMws l s).sent = s.sent := by
  induction l generalizing s with
  | nil => rfl
  | cons m rest ih => exact ih _

theorem advanceMws_headersSent (l : List (MwStep Val Extra Err)) (s : St Val Extra Err Schema) :
    (advanceMws l s).headersSent = s.headersSent := by
  induction l generalizing s with
  | nil => rfl
  | cons m rest ih => exact ih _

/-- A successful chain prefix just advances the state; the loop then
continues with the remaining steps. -/
theorem runMws_append (l₁ l₂ : List (MwStep Val Extra Err)) (s : St Val Extra Err Schema)
    (hok : ChainOk l₁ s.ctx) (he : s.err = none) :
    runMws (l₁ ++ l₂) s =
      runMws l₂ (advanceMws l₁ s) := by
  induction l₁ generalizing s with
  | nil => simp [advanceMws]
  | cons m rest ih =>
    obtain ⟨⟨hth, hsig⟩, hrest⟩ := hok
    obtain ⟨c, rs, hs, og, er, sn, nc, mw, va, hc⟩ := s
    simp only at he hth hsig hrest
    subst he
    simp only [List.cons_append, runMws, hth, hsig, advanceMws, List.foldl_cons]
    exact ih _ hrest rfl

theorem runHandler_inv (h : Req Val Extra → Script Val Extra Err)
    (s : St Val Extra Err Schema) (hi : RestoreInv s) :
    RestoreInv (runHandler parse h s).1 := by
  unfold runHandler
  have hp := runScript_inv parse (h s.ctx).actions
    ({ s with handlerCtx := some s.ctx } : St Val Extra Err Schema)
    (by rcases hi with hi | hi <;> [exact Or.inl hi; exact Or.inr hi])
  rcases hs : runScript parse (h s.ctx).actions
      ({ s with handlerCtx := some s.ctx } : St Val Extra Err Schema) with ⟨s2, e2⟩
  rw [hs] at hp
  cases e2 with
  | none => simp only [hs]; simpa using hp
  | some e => simp only [hs]; simpa using hp

/-- The handler phase always ends in the routine's tail, so it makes
exactly one `next` call, passing the final value of `err`. -/
theorem handlerPhase_calls (cfg : Cfg Val Extra Err Schema) (s : St Val Extra Err Schema) :
    (handlerPhase parse cfg s).nextCalls =
      s.nextCalls ++ [(handlerPhase parse cfg s).err] := by
  unfold handlerPhase
  have hp := runHandler_preserve parse cfg.handler s
  rcases hh : runHandler parse cfg.handler s with ⟨s1, r⟩
  rw [hh] at hp; simp only [] at hp
  cases r with
  | error e => simp [finalize_nextCalls, finalize_err, hp.1]
  | ok v =>
    by_cases hc : !s1.headersSent && s1.err.isNone
    · simp only [hc, if_true]
      have hd := doSend_preserve parse s1 v
      rcases hds : doSend parse s1 v with ⟨s2, e2⟩
      rw [hds] at hd; simp only [] at hd
      cases e2 with
      | none => simp [finalize_nextCalls, finalize_err, hd.1, hp.1]
      | some e => simp [finalize_nextCalls, finalize_err, hd.1, hp.1]
    · simp only [hc, if_false]
      simp [finalize_nextCalls, finalize_err, hp.1]

/-- The handler phase restores the original send operation whenever
the restoration invariant holds on entry. -/
theorem handlerPhase_resSend (cfg : Cfg Val Extra Err Schema) (s : St Val Extra Err Schema)
    (h : RestoreInv s) :
    (handlerPhase parse cfg s).resSend = SendSlot.original := by
  unfold handlerPhase
  have hi := runHandler_inv parse cfg.handler s h
  rcases hh : runHandler parse cfg.handler s with ⟨s1, r⟩
  rw [hh] at hi
  cases r with
  | error e => exact finalize_resSend _ hi
  | ok v =>
    by_cases hc : !s1.headersSent && s1.err.isNone
    · simp only [hc, if_true]
      have hd := doSend_inv parse s1 v hi
      rcases hds : doSend parse s1 v with ⟨s2, e2⟩
      rw [hds] at hd
      cases e2 with
      | none => exact finalize_resSend _ hd
      | some e => exact finalize_resSend _ hd
    · simp only [hc, if_false]
      exact finalize_resSend _ hi

/-- The validation-plus-handler phase always ends in the tail: exactly
one `next` call is appended, carrying the final `err`. -/
theorem validationPhase_calls (cfg : Cfg Val Extra Err Schema) (s : St Val Extra Err Schema) :
    (validationPhase parse cfg s).nextCalls =
      s.nextCalls ++ [(validationPhase parse cfg s).err] := by
  unfold validationPhase
  have hv := runValidation_preserve parse cfg.query cfg.params cfg.body s
  split
  next s1 e hvv =>
    rw [hvv] at hv
    simp only [] at hv
    simp [finalize_nextCalls, finalize_err, hv.1]
  next s1 hvv =>
    rw [hvv] at hv
    simp only [] at hv
    have hph := handlerPhase_calls parse cfg (installIc cfg s1)
    have hic : (installIc cfg s1).nextCalls = s1.nextCalls := by
      unfold installIc
      rcases cfg.result with _ | r
      · rfl
      · cases cfg.checkResult <;> rfl
    simp [hph, hic, hv.1]

/-- The validation-plus-handler phase restores the send slot when it
starts from an unwrapped response. -/
theorem validationPhase_resSend (cfg : Cfg Val Extra Err Schema) (s : St Val Extra Err Schema)
    (hso : s.resSend = SendSlot.original) :
    (validationPhase parse cfg s).resSend = SendSlot.original := by
  unfold validationPhase
  have hv := runValidation_preserve parse cfg.query cfg.params cfg.body s
  split
  next s1 e hvv =>
    rw [hvv] at hv
    simp only [] at hv
    exact finalize_resSend _ (Or.inr (hv.2.2.2.1.trans hso))
  next s1 hvv =>
    rw [hvv] at hv
    simp only [] at hv
    have hs1 : s1.resSend = SendSlot.original := hv.2.2.2.1.trans hso
    refine handlerPhase_resSend parse cfg _ ?_
    unfold installIc
    rcases cfg.result with _ | r
    · exact Or.inr hs1
    · cases cfg.checkResult
      · exact Or.inr hs1
      · exact Or.inl rfl

/-- Interceptor installation touches only the send slot and the
`originalSend` variable. -/
theorem installIc_preserve (cfg : Cfg Val Extra Err Schema) (s : St Val Extra Err Schema) :
    (installIc cfg s).ctx = s.ctx ∧ (installIc cfg s).handlerCtx = s.handlerCtx ∧
    (installIc cfg s).nextCalls = s.nextCalls ∧ (installIc cfg s).validated = s.validated ∧
    (installIc cfg s).mwStarted = s.mwStarted ∧ (installIc cfg s).sent = s.sent ∧
    (installIc cfg s).err = s.err ∧ (installIc cfg s).headersSent = s.headersSent := by
  unfold installIc
  split <;> simp

/-- The handler phase records the context the handler was invoked
with, and leaves the ghost validation and middleware counters
untouched. -/
theorem handlerPhase_ghost (cfg : Cfg Val Extra Err Schema) (s : St Val Extra Err Schema) :
    (handlerPhase parse cfg s).handlerCtx = some s.ctx ∧
    (handlerPhase parse cfg s).validated = s.validated ∧
    (handlerPhase parse cfg s).mwStarted = s.mwStarted := by
  unfold handlerPhase
  have hp := runHandler_preserve parse cfg.handler s
  rcases hh : runHandler parse cfg.handler s with ⟨s1, r⟩
  rw [hh] at hp; simp only [] at hp
  cases r with
  | error e =>
    simp [finalize_handlerCtx, finalize_validated, finalize_mwStarted, hp.2.1, hp.2.2.1, hp.2.2.2]
  | ok v =>
    by_cases hc : !s1.headersSent && s1.err.isNone
    · simp only [hc, if_true]
      have hd := doSend_preserve parse s1 v
      rcases hds : doSend parse s1 v with ⟨s2, e2⟩
      rw [hds] at hd; simp only [] at hd
      cases e2 with
      | none =>
        simp [finalize_handlerCtx, finalize_validated, finalize_mwStarted,
          hd.2.1, hd.2.2.1, hd.2.2.2.1, hp.2.1, hp.2.2.1, hp.2.2.2]
      | some e =>
        simp [finalize_handlerCtx, finalize_validated, finalize_mwStarted,
          hd.2.1, hd.2.2.1, hd.2.2.2.1, hp.2.1, hp.2.2.1, hp.2.2.2]
    · simp only [hc, if_false]
      simp [finalize_handlerCtx, finalize_validated, finalize_mwStarted,
        hp.2.1, hp.2.2.1, hp.2.2.2]

/-- A middleware step that throws ends the loop with the thrown
exception; its in-place mutation and `localNext` calls still took
effect. -/
theorem runMws_cons_thrown (m : MwStep Val Extra Err) (rest : List (MwStep Val Extra Err))
    (s : St Val Extra Err Schema) (e : Err) (hth : (m s.ctx).thrown = some e) :
    runMws (m :: rest) s =
      ({ s with ctx := (m s.ctx).ctx, mwStarted := s.mwStarted + 1, err := applySignals s.err (m s.ctx).signals }, LoopExit.thrown e) := by
  simp [runMws, hth]

/-- A middleware step that completes but leaves a truthy error in the
slot triggers the early `next(err); return`. -/
theorem runMws_cons_signal (m : MwStep Val Extra Err) (rest : List (MwStep Val Extra Err))
    (s : St Val Extra Err Schema) (e : Err) (hth : (m s.ctx).thrown = none)
    (hsig : applySignals s.err (m s.ctx).signals = some e) :
    runMws (m :: rest) s =
      ({ s with ctx := (m s.ctx).ctx, mwStarted := s.mwStarted + 1, err := some e, nextCalls := s.nextCalls ++ [some e] }, LoopExit.early) := by
  simp [runMws, hth, hsig]

/-- Validation when the query schema rejects: only the query field was
attempted, the error is returned. -/
theorem runValidation_qfail (sq : Schema) (p b : Option Schema)
    (s : St Val Extra Err Schema) (e : Err)
    (hq : parse sq s.ctx.query = Except.error e) :
    runValidation parse (some sq) p b s =
      ({ s with validated := s.validated ++ [RField.query] }, some e) := by
  simp [runValidation, validate1, hq]

/-- Validation when query passes (or is absent) and the params schema
rejects. -/
theorem runValidation_pfail (q : Option Schema) (sp : Schema) (b : Option Schema)
    (s : St Val Extra Err Schema) (vq : Val) (e : Err)
    (hq : parseField parse q s.ctx.query = Except.ok vq)
    (hp : parse sp s.ctx.params = Except.error e) :
    runValidation parse q (some sp) b s =
      ({ s with ctx := { s.ctx with query := vq }, validated := s.validated ++ (if q.isSome then [RField.query] else []) ++ [RField.params] }, some e) := by
  rcases q with _ | sq
  · simp only [parseField, Except.ok.injEq] at hq
    subst hq
    simp [runValidation, validate1, hp]
  · simp only [parseField] at hq
    simp [runValidation, validate1, hq, hp]

/-- Validation when query and params pass (or are absent) and the body
schema rejects. -/
theorem runValidation_bfail (q p : Option Schema) (sb : Schema)
    (s : St Val Extra Err Schema) (vq vp : Val) (e : Err)
    (hq : parseField parse q s.ctx.query = Except.ok vq)
    (hp : parseField parse p s.ctx.params = Except.ok vp)
    (hb : parse sb s.ctx.body = Except.error e) :
    runValidation parse q p (some sb) s =
      ({ s with ctx := { s.ctx with query := vq, params := vp }, validated := s.validated ++ (if q.isSome then [RField.query] else []) ++ (if p.isSome then [RField.params] else []) ++ [RField.body] }, some e) := by
  rcases q with _ | sq <;> rcases p with _ | sp <;>
    simp only [parseField, Except.ok.injEq] at hq hp
  · subst hq; subst hp
    simp [runValidation, validate1, hb]
  · subst hq
    simp [runValidation, validate1, hp, hb]
  · subst hp
    simp [runValidation, validate1, hq, hb]
  · simp [runValidation, validate1, hq, hp, hb]

/-- Validation when every configured schema accepts: each configured
field is replaced by its validated value, in order. -/
theorem runValidation_ok (q p b : Option Schema)
    (s : St Val Extra Err Schema) (vq vp vb : Val)
    (hq : parseField parse q s.ctx.query = Except.ok vq)
    (hp : parseField parse p s.ctx.params = Except.ok vp)
    (hb : parseField parse b s.ctx.body = Except.ok vb) :
    runValidation parse q p b s =
      ({ s with ctx := { s.ctx with query := vq, params := vp, body := vb }, validated := s.validated ++ (if q.isSome then [RField.query] else []) ++ (if p.isSome then [RField.params] else []) ++ (if b.isSome then [RField.body] else []) }, none) := by
  rcases q with _ | sq <;> rcases p with _ | sp <;> rcases b with _ | sb <;>
    simp only [parseField, Except.ok.injEq] at hq hp hb
  · subst hq; subst hp; subst hb
    simp [runValidation, validate1]
  · subst hq; subst hp
    simp [runValidation, validate1, hb]
  · subst hq; subst hb
    simp [runValidation, validate1, hp]
  · subst hq
    simp [runValidation, validate1, hp, hb]
  · subst hp; subst hb
    simp [runValidation, validate1, hq]
  · subst hp
    simp [runValidation, validate1, hq, hb]
  · subst hb
    simp [runValidation, validate1, hq, hp]
  · simp [runValidation, validate1, hq, hp, hb]

end Lemmas

/-! The claims. -/

section Claims

variable {Val Extra Err Schema : Type} (parse : Schema → Val → Except Err Val)

/-- C3: for every invocation of the produced routine — normal
completion, middleware/validation/handler failure, or
result-validation failure — the host framework's error-continuation
`next` is invoked exactly once, with the Captured Error when one was
captured and with no error otherwise. -/
theorem next_called_exactly_once (cfg : Cfg Val Extra Err Schema) (req : Req Val Extra) :
    (invoke parse cfg req).nextCalls = [(invoke parse cfg req).err] := by
  unfold invoke
  have hc := runMws_calls cfg.use (initSt req : St Val Extra Err Schema)
  split
  next s hm =>
    rw [hm] at hc
    simp only [] at hc
    simpa [initSt] using hc.1 trivial
  next s e hm =>
    rw [hm] at hc
    simp only [] at hc
    have h2 := hc.2.1 e rfl
    simp [initSt] at h2
    simp [finalize_nextCalls, finalize_err, h2]
  next s hm =>
    rw [hm] at hc
    simp only [] at hc
    have h2 := hc.2.2 trivial
    simp [initSt] at h2
    simp [validationPhase_calls, h2]

/-- C4: on every exit path of every invocation, the response's send
operation ends restored to the original: at completion the `res.send`
slot holds the host framework's original send operation, so sending
through the response afterwards behaves exactly as before the pipeline
wrapped it.  (This holds whether or not the interceptor was
installed.) -/
theorem send_always_restored (cfg : Cfg Val Extra Err Schema) (req : Req Val Extra) :
    (invoke parse cfg req).resSend = SendSlot.original := by
  unfold invoke
  have hpres := runMws_preserve cfg.use (initSt req : St Val Extra Err Schema)
  split
  next s hm =>
    rw [hm] at hpres
    simp only [] at hpres
    simpa [initSt] using hpres.1
  next s e hm =>
    rw [hm] at hpres
    simp only [] at hpres
    have hso : s.resSend = SendSlot.original := by simpa [initSt] using hpres.1
    exact finalize_resSend _ (Or.inr hso)
  next s hm =>
    rw [hm] at hpres
    simp only [] at hpres
    have hso : s.resSend = SendSlot.original := by simpa [initSt] using hpres.1
    exact validationPhase_resSend parse cfg s hso

/-- C1 counterexample: a middleware step that returns an updated
context without mutating the request in place.  The chain has no
failure, the returned value is a strict extension of the original
context, yet the handler observes the original context: the returned
value did not become the context passed onward, refuting the claim as
stated. -/
theorem returned_context_ignored :
    (Ex.mwPureRet Ex.reqA).ret = some { Ex.reqA with extra := 7 } ∧
    ({ Ex.reqA with extra := 7 } : Req Nat Nat) ≠ Ex.reqA ∧
    (invoke Ex.parseMod Ex.cfgC1 Ex.reqA).handlerCtx = some Ex.reqA := by
  refine ⟨rfl, by decide, by decide⟩

/-- C1 (amended): context flows through the middleware chain by
in-place mutation of the request — the value a step returns is
discarded by the runtime.  For every chain with no failures (and no
field validators configured, so the fields pass through), the handler
observes the cumulative in-place mutation of every step, applied in
list order. -/
theorem mw_mutations_reach_handler (cfg : Cfg Val Extra Err Schema) (req : Req Val Extra)
    (hok : ChainOk cfg.use req)
    (hq : cfg.query = none) (hp : cfg.params = none) (hb : cfg.body = none) :
    (invoke parse cfg req).handlerCtx = some (foldCtx cfg.use req) := by
  unfold invoke
  have happ := runMws_append cfg.use [] (initSt req : St Val Extra Err Schema)
    (by simpa [initSt] using hok) rfl
  rw [List.append_nil] at happ
  rw [happ]
  simp only [runMws]
  unfold validationPhase
  rw [hq, hp, hb]
  simp only [runValidation, validate1]
  have hg := (handlerPhase_ghost parse cfg (installIc cfg (advanceMws cfg.use (initSt req)))).1
  rw [hg, (installIc_preserve cfg (advanceMws cfg.use (initSt req))).1, advanceMws_ctx]
  simp [initSt]

/-- C1 witness: a two-step chain of in-place mutations. -/
theorem mw_mutations_reach_handler_witness :
    ChainOk Ex.cfgC1W.use Ex.reqA ∧
    (invoke Ex.parseMod Ex.cfgC1W Ex.reqA).handlerCtx =
      some (foldCtx Ex.cfgC1W.use Ex.reqA) := by
  have hok : ChainOk Ex.cfgC1W.use Ex.reqA := ⟨⟨rfl, rfl⟩, ⟨rfl, rfl⟩, trivial⟩
  exact ⟨hok, mw_mutations_reach_handler Ex.parseMod Ex.cfgC1W Ex.reqA hok rfl rfl rfl⟩

/-- C2 counterexample: a middleware stage that first signals error `1`
through the provided error callable and then throws error `2`.  The
error-continuation receives `2`: the later throw replaced the first
captured error, refuting first-write-wins as stated. -/
theorem throw_after_signal_reaches_next :
    (Ex.mwSignalThenThrow Ex.reqA).signals = [some 1] ∧
    (Ex.mwSignalThenThrow Ex.reqA).thrown = some 2 ∧
    (2 : Nat) ≠ 1 ∧
    (invoke Ex.parseMod Ex.cfgC2 Ex.reqA).nextCalls = [some 2] := by
  refine ⟨rfl, rfl, by decide, by decide⟩

/-- C2 (amended): the Captured Error slot is single-slot but
overwritable: a throw by a stage unconditionally overwrites whatever
the slot held (the catch block assigns it), so when one middleware
stage signals and then throws, the thrown error is the one forwarded.
Across stage boundaries the first failure still wins, because a
captured error short-circuits all later stages. -/
theorem throw_overwrites_captured_error (m : MwStep Val Extra Err)
    (q p b r : Option Schema) (cr : Bool) (hh : Req Val Extra → Script Val Extra Err)
    (req : Req Val Extra) (e : Err) (hth : (m req).thrown = some e) :
    (invoke parse { use := [m], query := q, params := p, body := b, result := r, checkResult := cr, handler := hh } req).nextCalls = [some e] := by
  unfold invoke
  rw [runMws_cons_thrown m [] (initSt req) e (by simpa [initSt] using hth)]
  simp [finalize_nextCalls, initSt]

/-- C2 witness: the signal-then-throw middleware forwarded its thrown
error. -/
theorem throw_overwrites_captured_error_witness :
    (Ex.mwSignalThenThrow Ex.reqA).thrown = some 2 ∧
    (invoke Ex.parseMod { use := [Ex.mwSignalThenThrow], query := none, params := none, body := none, result := none, checkResult := true, handler := Ex.hReturn 0 } Ex.reqA).nextCalls = [some 2] :=
  ⟨rfl, throw_overwrites_captured_error Ex.parseMod Ex.mwSignalThenThrow
    none none none none true (Ex.hReturn 0) Ex.reqA 2 rfl⟩

/-- C5: if the k-th middleware step fails — by throwing, or by calling
the provided error callable with an error — then the later steps are
never started, no field is validated, the handler is never invoked,
and the error-continuation receives exactly that failure value. -/
theorem middleware_failure_short_circuits (pre post : List (MwStep Val Extra Err))
    (m : MwStep Val Extra Err) (q p b r : Option Schema) (cr : Bool)
    (hh : Req Val Extra → Script Val Extra Err) (req : Req Val Extra) (e : Err)
    (hpre : ChainOk pre req)
    (hfail : (m (foldCtx pre req)).thrown = some e ∨
      ((m (foldCtx pre req)).thrown = none ∧
        applySignals none (m (foldCtx pre req)).signals = some e)) :
    (invoke parse { use := pre ++ m :: post, query := q, params := p, body := b, result := r, checkResult := cr, handler := hh } req).mwStarted = pre.length + 1 ∧
    (invoke parse { use := pre ++ m :: post, query := q, params := p, body := b, result := r, checkResult := cr, handler := hh } req).handlerCtx = none ∧
    (invoke parse { use := pre ++ m :: post, query := q, params := p, body := b, result := r, checkResult := cr, handler := hh } req).validated = [] ∧
    (invoke parse { use := pre ++ m :: post, query := q, params := p, body := b, result := r, checkResult := cr, handler := hh } req).nextCalls = [some e] := by
  unfold invoke
  have happ := runMws_append pre (m :: post) (initSt req : St Val Extra Err Schema)
    (by simpa [initSt] using hpre) rfl
  rw [happ]
  rcases hfail with hth | ⟨hth, hsig⟩
  · have hstep := runMws_cons_thrown m post (advanceMws pre (initSt req : St Val Extra Err Schema)) e
      (by rw [advanceMws_ctx]; simpa [initSt] using hth)
    rw [hstep]
    refine ⟨?_, ?_, ?_, ?_⟩
    · simp [finalize_mwStarted, advanceMws_mwStarted, initSt]
    · simp [finalize_handlerCtx, advanceMws_handlerCtx, initSt]
    · simp [finalize_validated, advanceMws_validated, initSt]
    · simp [finalize_nextCalls, advanceMws_nextCalls, initSt]
  · have hsig2 : applySignals (advanceMws pre (initSt req : St Val Extra Err Schema)).err
        (m (advanceMws pre (initSt req : St Val Extra Err Schema)).ctx).signals = some e := by
      rw [advanceMws_err, advanceMws_ctx]; simpa [initSt] using hsig
    have hstep := runMws_cons_signal m post (advanceMws pre (initSt req : St Val Extra Err Schema)) e
      (by rw [advanceMws_ctx]; simpa [initSt] using hth) hsig2
    rw [hstep]
    refine ⟨?_, ?_, ?_, ?_⟩
    · simp [advanceMws_mwStarted, initSt]
    · simp [advanceMws_handlerCtx, initSt]
    · simp [advanceMws_validated, initSt]
    · simp [advanceMws_nextCalls, initSt]

/-- C5 witness: step 2 of three throws; only steps 1 and 2 started,
nothing validated, handler never invoked, `next` got the thrown
error. -/
theorem middleware_failure_short_circuits_witness :
    ChainOk [Ex.mwAdd 2] Ex.reqA ∧
    (Ex.mwThrow 9 (foldCtx [Ex.mwAdd 2] Ex.reqA)).thrown = some 9 ∧
    (invoke Ex.parseMod { use := [Ex.mwAdd 2] ++ Ex.mwThrow 9 :: [Ex.mwAdd 3], query := none, params := none, body := none, result := none, checkResult := true, handler := Ex.hReturn 0 } Ex.reqA).mwStarted = 2 ∧
    (invoke Ex.parseMod { use := [Ex.mwAdd 2] ++ Ex.mwThrow 9 :: [Ex.mwAdd 3], query := none, params := none, body := none, result := none, checkResult := true, handler := Ex.hReturn 0 } Ex.reqA).handlerCtx = none ∧
    (invoke Ex.parseMod { use := [Ex.mwAdd 2] ++ Ex.mwThrow 9 :: [Ex.mwAdd 3], query := none, params := none, body := none, result := none, checkResult := true, handler := Ex.hReturn 0 } Ex.reqA).validated = [] ∧
    (invoke Ex.parseMod { use := [Ex.mwAdd 2] ++ Ex.mwThrow 9 :: [Ex.mwAdd 3], query := none, params := none, body := none, result := none, checkResult := true, handler := Ex.hReturn 0 } Ex.reqA).nextCalls = [some 9] := by
  have hok : ChainOk [Ex.mwAdd 2] Ex.reqA := ⟨⟨rfl, rfl⟩, trivial⟩
  have h := middleware_failure_short_circuits Ex.parseMod [Ex.mwAdd 2] [Ex.mwAdd 3]
    (Ex.mwThrow 9) none none none none true (Ex.hReturn 0) Ex.reqA 9 hok (Or.inl rfl)
  exact ⟨hok, rfl, h.1, h.2.1, h.2.2.1, h.2.2.2⟩

/-- C6: field validation runs query, then params, then body,
validating only fields with a configured schema and replacing each
field with the validated value; on the first failure the remaining
fields are not validated, the handler is not invoked, and the
error-continuation receives the collaborator thrown validation error
unmodified. -/
theorem field_validation_ordered (cfg : Cfg Val Extra Err Schema) (req : Req Val Extra)
    (huse : cfg.use = []) :
    (∀ sq e, cfg.query = some sq → parse sq req.query = Except.error e →
      (invoke parse cfg req).validated = [RField.query] ∧
      (invoke parse cfg req).handlerCtx = none ∧
      (invoke parse cfg req).nextCalls = [some e]) ∧
    (∀ vq sp e, parseField parse cfg.query req.query = Except.ok vq →
      cfg.params = some sp → parse sp req.params = Except.error e →
      (invoke parse cfg req).validated = (if cfg.query.isSome then [RField.query] else []) ++ [RField.params] ∧
      (invoke parse cfg req).handlerCtx = none ∧
      (invoke parse cfg req).nextCalls = [some e]) ∧
    (∀ vq vp sb e, parseField parse cfg.query req.query = Except.ok vq →
      parseField parse cfg.params req.params = Except.ok vp →
      cfg.body = some sb → parse sb req.body = Except.error e →
      (invoke parse cfg req).validated = (if cfg.query.isSome then [RField.query] else []) ++ (if cfg.params.isSome then [RField.params] else []) ++ [RField.body] ∧
      (invoke parse cfg req).handlerCtx = none ∧
      (invoke parse cfg req).nextCalls = [some e]) ∧
    (∀ vq vp vb, parseField parse cfg.query req.query = Except.ok vq →
      parseField parse cfg.params req.params = Except.ok vp →
      parseField parse cfg.body req.body = Except.ok vb →
      (invoke parse cfg req).validated = (if cfg.query.isSome then [RField.query] else []) ++ (if cfg.params.isSome then [RField.params] else []) ++ (if cfg.body.isSome then [RField.body] else []) ∧
      (invoke parse cfg req).handlerCtx = some { req with query := vq, params := vp, body := vb }) := by
  have hinv : invoke parse cfg req = validationPhase parse cfg (initSt req) := by
    unfold invoke
    rw [huse]
    simp [runMws]
  refine ⟨?_, ?_, ?_, ?_⟩
  · intro sq e hq hpe
    rw [hinv]
    unfold validationPhase
    rw [hq, runValidation_qfail parse sq cfg.params cfg.body (initSt req) e
      (by simpa [initSt] using hpe)]
    refine ⟨?_, ?_, ?_⟩
    · simp [finalize_validated, initSt]
    · simp [finalize_handlerCtx, initSt]
    · simp [finalize_nextCalls, finalize_err, initSt]
  · intro vq sp e hq hp hpe
    rw [hinv]
    unfold validationPhase
    rw [hp, runValidation_pfail parse cfg.query sp cfg.body (initSt req) vq e
      (by simpa [initSt] using hq) (by simpa [initSt] using hpe)]
    refine ⟨?_, ?_, ?_⟩
    · simp [finalize_validated, initSt]
    · simp [finalize_handlerCtx, initSt]
    · simp [finalize_nextCalls, finalize_err, initSt]
  · intro vq vp sb e hq hp hb hpe
    rw [hinv]
    unfold validationPhase
    rw [hb, runValidation_bfail parse cfg.query cfg.params sb (initSt req) vq vp e
      (by simpa [initSt] using hq) (by simpa [initSt] using hp)
      (by simpa [initSt] using hpe)]
    refine ⟨?_, ?_, ?_⟩
    · simp [finalize_validated, initSt]
    · simp [finalize_handlerCtx, initSt]
    · simp [finalize_nextCalls, finalize_err, initSt]
  · intro vq vp vb hq hp hb
    rw [hinv]
    unfold validationPhase
    rw [runValidation_ok parse cfg.query cfg.params cfg.body (initSt req) vq vp vb
      (by simpa [initSt] using hq) (by simpa [initSt] using hp)
      (by simpa [initSt] using hb)]
    constructor
    · simp only [handlerPhase_ghost, installIc_preserve]
      simp [initSt]
    · simp only [handlerPhase_ghost, installIc_preserve]
      simp [initSt]

/-- C6 witness: query and params coerced and replaced, body schema
rejects, so validation ran in order on all three fields and the
handler never ran; `next` got the thrown validation error. -/
theorem field_validation_ordered_witness :
    Ex.cfgC6.use = [] ∧
    (invoke Ex.parseMod Ex.cfgC6 Ex.reqA).validated = [RField.query, RField.params, RField.body] ∧
    (invoke Ex.parseMod Ex.cfgC6 Ex.reqA).handlerCtx = none ∧
    (invoke Ex.parseMod Ex.cfgC6 Ex.reqA).nextCalls = [some 103] := by
  have h := (field_validation_ordered Ex.parseMod Ex.cfgC6 Ex.reqA rfl).2.2.1
    10 20 2 103 rfl rfl rfl rfl
  exact ⟨rfl, h.1, h.2.1, h.2.2⟩

/-- C7: with the interceptor installed, a payload that fails result
validation is never transmitted through the original send, the
original send is restored, and the error-continuation receives the
validation error — both when the handler sends explicitly and when
the payload is the handler return value. -/
theorem result_validation_blocks_transmit (rS : Schema) (v w : Val) (e : Err)
    (req : Req Val Extra) (hpe : parse rS v = Except.error e) :
    ((invoke parse { use := [], query := none, params := none, body := none, result := some rS, checkResult := true, handler := fun _ => { actions := [HAction.send v], finish := Except.ok w } } req).sent = [] ∧
     (invoke parse { use := [], query := none, params := none, body := none, result := some rS, checkResult := true, handler := fun _ => { actions := [HAction.send v], finish := Except.ok w } } req).resSend = SendSlot.original ∧
     (invoke parse { use := [], query := none, params := none, body := none, result := some rS, checkResult := true, handler := fun _ => { actions := [HAction.send v], finish := Except.ok w } } req).nextCalls = [some e]) ∧
    ((invoke parse { use := [], query := none, params := none, body := none, result := some rS, checkResult := true, handler := fun _ => { actions := [], finish := Except.ok v } } req).sent = [] ∧
     (invoke parse { use := [], query := none, params := none, body := none, result := some rS, checkResult := true, handler := fun _ => { actions := [], finish := Except.ok v } } req).resSend = SendSlot.original ∧
     (invoke parse { use := [], query := none, params := none, body := none, result := some rS, checkResult := true, handler := fun _ => { actions := [], finish := Except.ok v } } req).nextCalls = [some e]) := by
  refine ⟨⟨?_, ?_, ?_⟩, ⟨?_, ?_, ?_⟩⟩ <;>
    simp [invoke, runMws, validationPhase, runValidation, validate1, installIc,
      handlerPhase, runHandler, runScript, doSend, finalize, initSt, hpe]

/-- C7 witness: schema `2` rejects payload `5` with error `105`;
nothing is sent and `next` receives the validation error, on both
paths. -/
theorem result_validation_blocks_transmit_witness :
    Ex.parseMod 2 5 = Except.error 105 ∧
    (invoke Ex.parseMod Ex.cfgC7E Ex.reqA).sent = [] ∧
    (invoke Ex.parseMod Ex.cfgC7E Ex.reqA).nextCalls = [some 105] ∧
    (invoke Ex.parseMod Ex.cfgC7I Ex.reqA).sent = [] ∧
    (invoke Ex.parseMod Ex.cfgC7I Ex.reqA).nextCalls = [some 105] := by
  have h := result_validation_blocks_transmit Ex.parseMod 2 5 0 105 Ex.reqA rfl
  exact ⟨rfl, h.1.1, h.1.2.2, h.2.1, h.2.2.2⟩

/-- C8: when the handler completes normally, has not signaled an error
and the response has not transmitted, the handler return value is sent
through the response (validated first when the interceptor is still
installed); when the handler already transmitted, or signaled an
error, the return value is never separately sent. -/
theorem handler_return_implicit_send (cfg : Cfg Val Extra Err Schema) (req : Req Val Extra)
    (huse : cfg.use = []) (hq : cfg.query = none) (hp : cfg.params = none)
    (hb : cfg.body = none) (s1 : St Val Extra Err Schema) (v : Val)
    (hrun : runHandler parse cfg.handler (installIc cfg (initSt req)) = (s1, Except.ok v)) :
    (s1.headersSent = false → s1.err = none → s1.resSend = SendSlot.original →
      (invoke parse cfg req).sent = s1.sent ++ [v] ∧
      (invoke parse cfg req).nextCalls = [none]) ∧
    (∀ rS v2, s1.headersSent = false → s1.err = none → s1.resSend = SendSlot.wrapped rS →
      parse rS v = Except.ok v2 →
      (invoke parse cfg req).sent = s1.sent ++ [v2] ∧
      (invoke parse cfg req).nextCalls = [none]) ∧
    (s1.headersSent = true →
      (invoke parse cfg req).sent = s1.sent ∧
      (invoke parse cfg req).nextCalls = [s1.err]) ∧
    (∀ e, s1.err = some e →
      (invoke parse cfg req).sent = s1.sent ∧
      (invoke parse cfg req).nextCalls = [some e]) := by
  have hinv : invoke parse cfg req = handlerPhase parse cfg (installIc cfg (initSt req)) := by
    unfold invoke
    rw [huse]
    simp only [runMws]
    unfold validationPhase
    rw [hq, hp, hb]
    simp [runValidation, validate1]
  have hnc : s1.nextCalls = [] := by
    have h := (runHandler_preserve parse cfg.handler (installIc cfg (initSt req))).1
    rw [hrun] at h
    simp only [] at h
    rw [h, (installIc_preserve cfg (initSt req)).2.2.1]
    rfl
  refine ⟨?_, ?_, ?_, ?_⟩
  · intro h1 h2 h3
    rw [hinv]
    unfold handlerPhase
    rw [hrun]
    simp [h1, h2, doSend, h3, finalize_sent, finalize_nextCalls, finalize_err, hnc]
  · intro rS v2 h1 h2 h3 hok
    rw [hinv]
    unfold handlerPhase
    rw [hrun]
    simp [h1, h2, doSend, h3, hok, finalize_sent, finalize_nextCalls, finalize_err, hnc]
  · intro h1
    rw [hinv]
    unfold handlerPhase
    rw [hrun]
    simp [h1, finalize_sent, finalize_nextCalls, finalize_err, hnc]
  · intro e h1
    rw [hinv]
    unfold handlerPhase
    rw [hrun]
    simp [h1, finalize_sent, finalize_nextCalls, finalize_err, hnc]

/-- C8 witness: a handler that sends nothing and returns `7`; the
return value is transmitted and `next` receives no error. -/
theorem handler_return_implicit_send_witness :
    (invoke Ex.parseMod Ex.cfgC8 Ex.reqA).sent = [7] ∧
    (invoke Ex.parseMod Ex.cfgC8 Ex.reqA).nextCalls = [none] := by
  have h := (handler_return_implicit_send Ex.parseMod Ex.cfgC8 Ex.reqA rfl rfl rfl rfl
    Ex.sC8 7 rfl).1 rfl rfl rfl
  exact ⟨h.1, h.2⟩

/-- C9: the interceptor is installed iff a result schema is configured
and the result-checking toggle is enabled; the toggle defaults to
enabled exactly when the deployment is not marked production; and with
`checkResult` forced false a payload that fails the result schema is
transmitted as-is, with `next` receiving no error. -/
theorem interceptor_toggle (opts : MakeOpts Schema FieldMap) (production : Bool)
    (rS : Schema) (v : Val) (e : Err) (req : Req Val Extra)
    (hcr : opts.checkResult = some false) (hpe : parse rS v = Except.error e) :
    (∀ (opts2 : MakeOpts Schema FieldMap) (rc : RouteCfg Val Extra Err Schema FieldMap),
      opts2.checkResult = none →
      (resolveRoute opts2 production rc).checkResult = !production) ∧
    (∀ (opts2 : MakeOpts Schema FieldMap) (rc : RouteCfg Val Extra Err Schema FieldMap) (b2 : Bool),
      opts2.checkResult = some b2 →
      (resolveRoute opts2 production rc).checkResult = b2) ∧
    (∀ (cfg : Cfg Val Extra Err Schema) (s : St Val Extra Err Schema) (rr : Schema),
      cfg.result = some rr → cfg.checkResult = true →
      installIc cfg s = { s with originalSend := true, resSend := SendSlot.wrapped rr }) ∧
    (∀ (cfg : Cfg Val Extra Err Schema) (s : St Val Extra Err Schema),
      cfg.result = none ∨ cfg.checkResult = false → installIc cfg s = s) ∧
    ((makeHandler parse opts production { use := none, query := none, params := none, body := none, result := some (SchemaInput.opaqueSchema rS), handler := fun _ => { actions := [], finish := Except.ok v } } req).sent = [v] ∧
     (makeHandler parse opts production { use := none, query := none, params := none, body := none, result := some (SchemaInput.opaqueSchema rS), handler := fun _ => { actions := [], finish := Except.ok v } } req).nextCalls = [none]) := by
  refine ⟨?_, ?_, ?_, ?_, ?_⟩
  · intro opts2 rc h
    simp [resolveRoute, h]
  · intro opts2 rc b2 h
    simp [resolveRoute, h]
  · intro cfg s rr h1 h2
    simp [installIc, h1, h2]
  · intro cfg s h
    rcases h with h | h
    · simp [installIc, h]
    · rcases hr : cfg.result with _ | rr <;> simp [installIc, h, hr]
  · constructor <;>
      simp [makeHandler, resolveRoute, hcr, objectToType, toUseList, invoke, runMws,
        validationPhase, runValidation, validate1, installIc, handlerPhase, runHandler,
        runScript, doSend, finalize, initSt]

/-- C9 witness: toggle forced false, schema `2` rejects payload `5`,
yet the payload is transmitted as-is and `next` receives no error. -/
theorem interceptor_toggle_witness :
    Ex.optsC9.checkResult = some false ∧
    Ex.parseMod 2 5 = Except.error 105 ∧
    (makeHandler Ex.parseMod Ex.optsC9 false Ex.rcC9 Ex.reqA).sent = [5] ∧
    (makeHandler Ex.parseMod Ex.optsC9 false Ex.rcC9 Ex.reqA).nextCalls = [none] := by
  have h := (interceptor_toggle Ex.parseMod Ex.optsC9 false 2 5 105 Ex.reqA rfl rfl).2.2.2.2
  exact ⟨rfl, rfl, h.1, h.2⟩

/-- C10: a handler that signals an error through the provided error
callable and afterwards explicitly sends a payload still gets the
payload transmitted (the intercepted send never consults the captured
error), and the error-continuation receives the signaled error; only
the implicit return-value send is suppressed. -/
theorem signaled_error_allows_explicit_send (rS : Schema) (v v2 w : Val) (e : Err)
    (req : Req Val Extra) (hok : parse rS v = Except.ok v2) :
    (invoke parse { use := [], query := none, params := none, body := none, result := some rS, checkResult := true, handler := fun _ => { actions := [HAction.signal (some e), HAction.send v], finish := Except.ok w } } req).sent = [v2] ∧
    (invoke parse { use := [], query := none, params := none, body := none, result := some rS, checkResult := true, handler := fun _ => { actions := [HAction.signal (some e), HAction.send v], finish := Except.ok w } } req).nextCalls = [some e] := by
  constructor <;>
    simp [invoke, runMws, validationPhase, runValidation, validate1, installIc,
      handlerPhase, runHandler, runScript, doSend, finalize, initSt, hok]

/-- C10 witness: schema `100` accepts payload `5` (coerced to `50`);
the handler signaled error `9` before sending, the payload was
transmitted and `next` received the signaled error. -/
theorem signaled_error_allows_explicit_send_witness :
    Ex.parseMod 100 5 = Except.ok 50 ∧
    (invoke Ex.parseMod { use := [], query := none, params := none, body := none, result := some 100, checkResult := true, handler := fun _ => { actions := [HAction.signal (some 9), HAction.send 5], finish := Except.ok 0 } } Ex.reqA).sent = [50] ∧
    (invoke Ex.parseMod { use := [], query := none, params := none, body := none, result := some 100, checkResult := true, handler := fun _ => { actions := [HAction.signal (some 9), HAction.send 5], finish := Except.ok 0 } } Ex.reqA).nextCalls = [some 9] := by
  have h := signaled_error_allows_explicit_send Ex.parseMod 100 5 50 0 9 Ex.reqA rfl
  exact ⟨rfl, h.1, h.2⟩

end Claims
